import Mathlib

/-!
Verification development for the salatrack scheduling-board client
(`PageClientBoard`).  The definitions below are shallow embeddings of the
client-side synchronization and mutation code: pure functions mirror the
source functions, stateful handlers are modelled as explicit state
transitions, remote calls are modelled by their outcome values, and the
two source variants of a function are embedded separately where they
differ (`...Tsx` marks the `src/app/PageClientBoard.tsx` variant).
-/

namespace SalaTrack

/-- A board card, mirroring the `Item` record used by the client:
identity, calendar day key, room row, integer position `ord`, and the
free-text / flag fields. -/
structure Item where
  id : String
  day : String
  row : String
  ord : Int
  name : String
  room : String
  dx : String
  proc : String
  done : Bool
deriving DecidableEq, Repr

/-- Membership test for a (day,row) cell, mirroring
`i.day === day && i.row === row` in the cell filters. -/
def inCell (d r : String) (i : Item) : Bool :=
  i.day == d && i.row == r

/-- Comparator used by the cell sort, mirroring
`(a, b) => Number(a.ord) - Number(b.ord)` (ascending, stable). -/
def ordLe (a b : Item) : Bool :=
  a.ord ≤ b.ord

/-- The ord-sorted content of one (day,row) cell of the local cache,
mirroring `items.filter(...).sort((a,b) => Number(a.ord) - Number(b.ord))`
(JavaScript sort is stable, as is `mergeSort`). -/
def sortedCell (items : List Item) (d r : String) : List Item :=
  (items.filter (inCell d r)).mergeSort ordLe

/-- The ordered list of `updateItem(id, {ord})` writes issued by
`moveOneUp`: locate the item in its sorted cell; if it has a preceding
neighbour, first write the neighbour ord onto the item, then write the
item prior ord onto the neighbour; otherwise no write
(`if (idx <= 0) return`). -/
def moveOneUpWrites (items : List Item) (it : Item) : List (String × Int) :=
  match List.findIdx? (fun i => i.id == it.id) (sortedCell items it.day it.row) with
  | none => []
  | some idx =>
    if idx = 0 then []
    else
      match (sortedCell items it.day it.row)[idx - 1]? with
      | none => []
      | some prev => [(it.id, prev.ord), (prev.id, it.ord)]

/-- The ordered list of `updateItem(id, {ord})` writes issued by
`moveOneDown`: symmetric with the following neighbour
(`if (idx < 0 || idx >= cell.length - 1) return`). -/
def moveOneDownWrites (items : List Item) (it : Item) : List (String × Int) :=
  match List.findIdx? (fun i => i.id == it.id) (sortedCell items it.day it.row) with
  | none => []
  | some idx =>
    if (sortedCell items it.day it.row).length - 1 ≤ idx then []
    else
      match (sortedCell items it.day it.row)[idx + 1]? with
      | none => []
      | some next => [(it.id, next.ord), (next.id, it.ord)]

/-- Effect of one remote `updateItem(id, {ord})` write on a single row:
the row with the written id gets the new ord. -/
def applyW (w : String × Int) (j : Item) : Item :=
  if j.id == w.1 then { j with ord := w.2 } else j

/-- Effect of one remote `updateItem(id, {ord})` write on the store, as
seen by the next full refresh. -/
def applyWrite (items : List Item) (w : String × Int) : List Item :=
  items.map (applyW w)

/-- Effect of a sequence of ord writes, applied in order. -/
def applyWrites (items : List Item) (ws : List (String × Int)) : List Item :=
  ws.foldl applyWrite items

/-- The card handed to the next operation after a refresh: the row of the
refreshed cache carrying the same id (the UI re-renders cards from the
refreshed `items` and passes the re-read card to the next handler). -/
def refreshItem (items : List Item) (it : Item) : Item :=
  (items.find? (fun j => j.id == it.id)).getD it

/-- Composite experiment for the round-trip property: run `moveOneUp`,
let the store refresh, then run `moveOneDown` on the same (refreshed)
card, and return the resulting store. -/
def moveUpThenDown (items : List Item) (it : Item) : List Item :=
  applyWrites (applyWrites items (moveOneUpWrites items it))
    (moveOneDownWrites (applyWrites items (moveOneUpWrites items it))
      (refreshItem (applyWrites items (moveOneUpWrites items it)) it))

/-- Client role, as held in the `role` state of the board page. -/
inductive Role where
  | editor
  | viewer
  | unknown
deriving DecidableEq, Repr

/-- Field values coming from the inline add/edit editor. -/
structure AddVals where
  name : String
  room : String
  dx : String
  proc : String
deriving DecidableEq, Repr

/-- Outcome of one `onSubmitAdd` invocation: the Item written to the
remote store (if any), whether the empty-card alert fired, and whether a
refresh was triggered afterwards. -/
structure AddOutcome where
  written : Option Item
  alerted : Bool
  refreshed : Bool
deriving DecidableEq, Repr

/-- JavaScript `s.trim()`: strip leading and trailing whitespace
(structurally recursive model so that concrete instances evaluate). -/
def jsTrim (s : String) : String :=
  ⟨((s.data.dropWhile Char.isWhitespace).reverse.dropWhile Char.isWhitespace).reverse⟩

/-- JavaScript `s.toLowerCase()` (ASCII case fold, structural model). -/
def jsToLower (s : String) : String :=
  ⟨s.data.map Char.toLower⟩

/-- The ord chosen for a new card, mirroring
`cellItems.length > 0 ? Math.max(...cellItems.map(i => Number(i.ord) || 0)) + 1 : 1`. -/
def nextOrdFor (cell : List Item) : Int :=
  match cell.map Item.ord with
  | [] => 1
  | x :: xs => xs.foldl max x + 1

/-- Shallow embedding of `onSubmitAdd(day, vals)`: gate on the effective
role, require a loaded center, compute the next ord from the locally
cached items of the (day, draftRow) cell, trim the text fields, reject
(alert) a card whose name, dx and room are all empty, otherwise write the
payload and refresh.  The remote `center_id` column is outside the `Item`
model and is dropped; the id is assigned remotely and left empty here. -/
def onSubmitAdd (effectiveRole : Role) (centerId : Option String)
    (items : List Item) (draftRow : String) (day : String) (vals : AddVals) :
    AddOutcome :=
  if effectiveRole ≠ Role.editor then ⟨none, false, false⟩
  else
    match centerId with
    | none => ⟨none, false, false⟩
    | some _ =>
      let cellItems := items.filter (inCell day draftRow)
      let payload : Item :=
        { id := "", day := day, row := draftRow, ord := nextOrdFor cellItems,
          name := jsTrim vals.name, room := jsTrim vals.room, dx := jsTrim vals.dx,
          proc := vals.proc, done := false }
      if payload.name == "" && payload.dx == "" && payload.room == "" then
        ⟨none, true, false⟩
      else ⟨some payload, false, true⟩

/-- Days are embedded as day numbers (the count of calendar days since
the Unix epoch); the ISO string of the source is the decimal rendering of
such a number.  `dayOfWeek` mirrors `Date.prototype.getDay` (0 = Sunday,
…, 6 = Saturday); day 0, 1970-01-01, was a Thursday (= 4). -/
def dayOfWeek (n : Int) : Int :=
  (n + 4) % 7

/-- Shallow embedding of `nextBusinessDayISO`: Friday jumps +3 to Monday,
Saturday +2, Sunday +1, any other day +1. -/
def nextBusinessDay (n : Int) : Int :=
  if dayOfWeek n = 5 then n + 3
  else if dayOfWeek n = 6 then n + 2
  else if dayOfWeek n = 0 then n + 1
  else n + 1

/-- Shallow embedding of `prevBusinessDayISO`: Monday jumps -3 to Friday,
Sunday -2, Saturday -1, any other day -1. -/
def prevBusinessDay (n : Int) : Int :=
  if dayOfWeek n = 1 then n - 3
  else if dayOfWeek n = 0 then n - 2
  else if dayOfWeek n = 6 then n - 1
  else n - 1

/-- Destination day written by `moveDayRight`: inside the visible week the
next visible day; from the last visible day the next business day; no
write when the day is not visible (`indexOf` returned -1). -/
def moveDayRightDest (dayKeys : List Int) (d : Int) : Option Int :=
  match List.findIdx? (fun k => k == d) dayKeys with
  | none => none
  | some idx =>
    if idx < dayKeys.length - 1 then dayKeys[idx + 1]?
    else if idx = dayKeys.length - 1 then some (nextBusinessDay d)
    else none

/-- Destination day written by `moveDayLeft`: inside the visible week the
previous visible day; from the first visible day the previous business
day. -/
def moveDayLeftDest (dayKeys : List Int) (d : Int) : Option Int :=
  match List.findIdx? (fun k => k == d) dayKeys with
  | none => none
  | some idx =>
    if 0 < idx then dayKeys[idx - 1]?
    else some (prevBusinessDay d)

/-- Events that update the `role` state in the auth bootstrap of the
board page: the optimistic write at the head of the auth handler, the
unconditional write of the resolved role after `resolveRole` settles
(`lookup = none` models a failed or timed-out `getMyRole`), and one
attempt of the background upgrade ladder (`upgradeToEditor`). -/
inductive SessEvent where
  | authOptimistic (hasUser : Bool)
  | authResolved (hasUser : Bool) (lookup : Option Role)
  | ladderStep (lookup : Option Role)
deriving DecidableEq, Repr

/-- Shallow embedding of `resolveRole`: no user gives `unknown`; a
successful `getMyRole` gives its result; a failure or timeout falls back
to `viewer`. -/
def resolveRole (hasUser : Bool) (lookup : Option Role) : Role :=
  if !hasUser then Role.unknown
  else
    match lookup with
    | some r => r
    | none => Role.viewer

/-- One `setRole` transition of the session state: the auth handler first
sets the optimistic role, later overwrites it with the resolved role; a
ladder attempt sets `editor` exactly when its lookup resolved `editor`
and otherwise leaves the role unchanged. -/
def sessStep (role : Role) : SessEvent → Role
  | SessEvent.authOptimistic hasUser => if hasUser then Role.viewer else Role.unknown
  | SessEvent.authResolved hasUser lookup => resolveRole hasUser lookup
  | SessEvent.ladderStep lookup =>
    if resolveRole true lookup == Role.editor then Role.editor else role

/-- Run of the session state machine over a sequence of events. -/
def sessRun (role : Role) (evs : List SessEvent) : Role :=
  evs.foldl sessStep role

/-- Outcome of one `toggleInpatient` invocation: the local admitted-id
set afterwards, and whether an admit was applied as a success (the
optimistic set insertion was reached).  Thrown errors are caught by the
enclosing `catch` and only logged, so nothing propagates. -/
structure ToggleOutcome where
  inSet : List String
  admitSuccess : Bool
deriving DecidableEq, Repr

/-- Shallow embedding of `toggleInpatient(it)`: require a loaded center
and no in-flight call for the same id; discharge when the id is in the
local set; otherwise insert, treating insert-error code `23505`
(uniqueness violation) as success and re-throwing any other code into the
enclosing catch, which leaves the set unchanged. -/
def toggleInpatient (centerId : Option String) (inFlight : Bool)
    (inpatientSet : List String) (it : Item)
    (dischargeErr : Option String) (insertErr : Option String) : ToggleOutcome :=
  match centerId with
  | none => ⟨inpatientSet, false⟩
  | some _ =>
    if inFlight then ⟨inpatientSet, false⟩
    else if inpatientSet.contains it.id then
      match dischargeErr with
      | some _ => ⟨inpatientSet, false⟩
      | none => ⟨inpatientSet.filter (fun x => !(x == it.id)), false⟩
    else
      match insertErr with
      | some code =>
        if code == "23505" then ⟨it.id :: inpatientSet, true⟩
        else ⟨inpatientSet, false⟩
      | none => ⟨it.id :: inpatientSet, true⟩

/-- Backoff delay before retry attempt `i + 1`, mirroring
`baseMs * Math.pow(1.6, i)` (1.6 embedded as the rational 8/5). -/
def backoffDelay (base : ℚ) (i : Nat) : ℚ :=
  base * (8 / 5) ^ i

/-- Recursion of `retry`: `remaining` attempts left, `i` the index of the
next attempt, `last` the last error seen.  Returns the final outcome
(`Except.error last` when attempts run out; `last = none` only when no
attempt ever ran) together with the list of waits performed. -/
def retryGo {E A : Type} (fn : Nat → Except E A) (base : ℚ) :
    Nat → Nat → Option E → Except (Option E) A × List ℚ
  | 0, _, last => (Except.error last, [])
  | n + 1, i, _ =>
    match fn i with
    | Except.ok a => (Except.ok a, [])
    | Except.error e =>
      let p := retryGo fn base n (i + 1) (some e)
      (p.1, backoffDelay base i :: p.2)

/-- Shallow embedding of `retry(fn, tries, baseMs)`; the `i`-th call of
the wrapped operation has outcome `fn i`. -/
def retryModel {E A : Type} (fn : Nat → Except E A) (tries : Nat) (base : ℚ) :
    Except (Option E) A × List ℚ :=
  retryGo fn base tries 0 none

/-- Prefix test on character lists (helper for the JavaScript
`String.prototype.includes`). -/
def listHasPre : List Char → List Char → Bool
  | [], _ => true
  | _ :: _, [] => false
  | a :: ps, b :: ls => a == b && listHasPre ps ls

/-- Substring test on character lists. -/
def listHasSub (pat : List Char) : List Char → Bool
  | [] => pat.isEmpty
  | b :: t => listHasPre pat (b :: t) || listHasSub pat t

/-- JavaScript `s.includes(pat)`. -/
def jsIncludes (s pat : String) : Bool :=
  listHasSub pat.data s.data

/-- Shallow embedding of `isTransientNetworkError` as found in the
unnamed board source (part_000): `raw` is the extracted message text
(`e?.message ?? e?.error_description ?? e?.details ?? e?.hint ?? …`),
`offline` is `navigator.onLine === false`.  The message is lowercased and
scanned for the network / timeout / abort signatures. -/
def isTransientNetworkError (offline : Bool) (raw : String) : Bool :=
  let msg := jsToLower raw
  offline ||
  jsIncludes msg "failed to fetch" ||
  jsIncludes msg "networkerror" ||
  jsIncludes msg "network" ||
  jsIncludes msg "load failed" ||
  jsIncludes msg "err_network_changed" ||
  jsIncludes msg "internet_disconnected" ||
  jsIncludes msg "websocket" ||
  jsIncludes msg "timeout" ||
  jsIncludes msg "abort" ||
  jsIncludes msg "aborted" ||
  jsIncludes msg "aborterror" ||
  jsIncludes msg "signal is aborted"

/-- Shallow embedding of `isTransientNetworkError` as found in
`src/app/PageClientBoard.tsx`: same shape, but the signature list stops
at `timeout` and carries no abort signatures. -/
def isTransientNetworkErrorTsx (offline : Bool) (raw : String) : Bool :=
  let msg := jsToLower raw
  offline ||
  jsIncludes msg "failed to fetch" ||
  jsIncludes msg "networkerror" ||
  jsIncludes msg "network" ||
  jsIncludes msg "load failed" ||
  jsIncludes msg "err_network_changed" ||
  jsIncludes msg "internet_disconnected" ||
  jsIncludes msg "websocket" ||
  jsIncludes msg "timeout"

/-- State of the config loader: the token of the pending load promise
held in `loadingCenterRef` (if any), the number of remote fetch sequences
started, and a fresh-token counter. -/
structure ConfigLoaderState where
  inFlight : Option Nat
  fetchesStarted : Nat
  nextToken : Nat
deriving DecidableEq, Repr

/-- One call of the part_000 `loadCenterConfig`: if a load is in flight
its promise is returned and nothing new is fetched
(`if (loadingCenterRef.current) return loadingCenterRef.current`);
otherwise a new fetch sequence starts and its promise is stored in the
ref.  Returns the token of the promise the caller awaits. -/
def loadCenterConfigCall (s : ConfigLoaderState) : ConfigLoaderState × Nat :=
  match s.inFlight with
  | some t => (s, t)
  | none =>
    ({ inFlight := some s.nextToken, fetchesStarted := s.fetchesStarted + 1,
       nextToken := s.nextToken + 1 }, s.nextToken)

/-- Completion of the pending load (success or failure): the `finally`
block clears `loadingCenterRef.current`. -/
def loadCenterConfigSettle (s : ConfigLoaderState) (_success : Bool) : ConfigLoaderState :=
  { s with inFlight := none }

/-- One call of the `src/app/PageClientBoard.tsx` `loadCenterConfig`:
that variant keeps no in-flight marker, so every call starts its own
fetch sequence and returns its own fresh promise. -/
def loadCenterConfigCallTsx (s : ConfigLoaderState) : ConfigLoaderState × Nat :=
  ({ s with fetchesStarted := s.fetchesStarted + 1, nextToken := s.nextToken + 1 },
   s.nextToken)

/-- Outcome of one refresh attempt: the local items cache afterwards and
whether a remote fetch (`listWeek`) was performed. -/
structure RefreshOutcome where
  items : List Item
  fetched : Bool
deriving DecidableEq, Repr

/-- Shallow embedding of `refresh`: bail out without fetching when no
center is loaded or the device is offline
(`if (typeof navigator !== 'undefined' && !navigator.onLine) return`);
otherwise fetch the visible week (`fetchResult = none` models a failed
fetch, which is shown and leaves the cache unchanged). -/
def refresh (online : Bool) (centerId : Option String) (items : List Item)
    (fetchResult : Option (List Item)) : RefreshOutcome :=
  match centerId with
  | none => ⟨items, false⟩
  | some _ =>
    if !online then ⟨items, false⟩
    else
      match fetchResult with
      | some d => ⟨d, true⟩
      | none => ⟨items, true⟩

/-- Shallow embedding of the part_000 `refreshSafe`: a no-op when the
effect is torn down (`alive = false`) or the device reports offline
(`navigator.onLine === false`); otherwise it runs `refresh`, swallowing
errors. -/
def refreshSafe (alive online : Bool) (centerId : Option String)
    (items : List Item) (fetchResult : Option (List Item)) : RefreshOutcome :=
  if !alive then ⟨items, false⟩
  else if online == false then ⟨items, false⟩
  else refresh online centerId items fetchResult

/-- Externally visible effects of `signOut`, in program order. -/
inductive SignOutEffect where
  | removeLocal (key : String)
  | remoteSignOut
  | uiReset
  | dispatchSignedOut
  | showError
deriving DecidableEq, Repr

/-- Shallow embedding of `signOut` (part_000 variant; the tsx variant has
the same removal and remote-call prefix): remove the persisted read-only
flag, then call the remote sign-out; on a remote error the catch shows
it, otherwise the UI state is reset and the signed-out event
dispatched. -/
def signOutEffects (remoteError : Bool) : List SignOutEffect :=
  if remoteError then
    [SignOutEffect.removeLocal "salatrack_readonly", SignOutEffect.remoteSignOut,
     SignOutEffect.showError]
  else
    [SignOutEffect.removeLocal "salatrack_readonly", SignOutEffect.remoteSignOut,
     SignOutEffect.uiReset, SignOutEffect.dispatchSignedOut]

/-- Initial value of the persisted read-only preference on mount,
mirroring `localStorage.getItem('salatrack_readonly') === '1'`. -/
def readOnlyInit (stored : Option String) : Bool :=
  stored == some "1"

/-- Concrete card used to instantiate the universally quantified
theorems on explicit inputs. -/
def sampleA : Item :=
  { id := "a", day := "2025-01-06", row := "Sala 1", ord := 1,
    name := "p1", room := "", dx := "", proc := "Coronaria", done := false }

/-- Second concrete card in the same cell as `sampleA`. -/
def sampleB : Item :=
  { sampleA with id := "b", ord := 2, name := "p2" }

/-- Third concrete card in the same cell as `sampleA`. -/
def sampleC : Item :=
  { sampleA with id := "c", ord := 3, name := "p3" }

/-- Concrete sequence of attempt outcomes used to instantiate the retry
theorem: the first two calls fail, the third succeeds. -/
def sampleAttempts (i : Nat) : Except String Nat :=
  if i = 2 then Except.ok 5 else Except.error "boom"

/-! ### Helper lemmas -/

theorem ordLe_iff {a b : Item} : ordLe a b = true ↔ a.ord ≤ b.ord := by
  simp [ordLe]

theorem ordLe_trans : ∀ a b c : Item, ordLe a b = true → ordLe b c = true → ordLe a c = true := by
  intro a b c
  simp only [ordLe_iff]
  omega

theorem ordLe_total : ∀ a b : Item, (ordLe a b || ordLe b a) = true := by
  intro a b
  simp only [Bool.or_eq_true, ordLe_iff]
  omega

/-- The relation along which sorted cells are unique: strictly smaller
ord, or equality. -/
def ordRel (a b : Item) : Prop :=
  a.ord < b.ord ∨ a = b

instance : IsAntisymm Item ordRel := by
  constructor
  intro a b hab hba
  rcases hab with h | h
  · rcases hba with h2 | h2
    · omega
    · exact h2.symm
  · exact h

theorem sorted_ordRel {l : List Item}
    (hpw : List.Pairwise (fun a b => ordLe a b = true) l)
    (hnd : (l.map Item.ord).Nodup) : List.Sorted ordRel l := by
  have hne : List.Pairwise (fun a b : Item => a.ord ≠ b.ord) l := by
    rw [List.Nodup, List.pairwise_map] at hnd
    exact hnd
  refine (hpw.and hne).imp ?_
  intro a b hab
  rcases hab with ⟨h1, h2⟩
  rw [ordLe_iff] at h1
  exact Or.inl (lt_of_le_of_ne h1 h2)

theorem sorted_cell_unique {l₁ l₂ : List Item} (hperm : l₁.Perm l₂)
    (h₁ : List.Pairwise (fun a b => ordLe a b = true) l₁)
    (h₂ : List.Pairwise (fun a b => ordLe a b = true) l₂)
    (hnd : (l₁.map Item.ord).Nodup) : l₁ = l₂ :=
  List.eq_of_perm_of_sorted hperm (sorted_ordRel h₁ hnd)
    (sorted_ordRel h₂ ((hperm.map Item.ord).nodup hnd))

theorem mem_eq_of_id_eq {l : List Item} (hn : (l.map Item.id).Nodup)
    {a b : Item} (ha : a ∈ l) (hb : b ∈ l) (hid : a.id = b.id) : a = b := by
  induction l with
  | nil => cases ha
  | cons x xs ih =>
    rw [List.map_cons, List.nodup_cons] at hn
    rcases List.mem_cons.mp ha with rfl | ha2
    · rcases List.mem_cons.mp hb with rfl | hb2
      · rfl
      · exact absurd (hid ▸ List.mem_map_of_mem Item.id hb2) hn.1
    · rcases List.mem_cons.mp hb with rfl | hb2
      · exact absurd (hid ▸ List.mem_map_of_mem Item.id ha2) hn.1
      · exact ih hn.2 ha2 hb2

theorem find_by_id {l : List Item} (hn : (l.map Item.id).Nodup)
    {a : Item} (ha : a ∈ l) : l.find? (fun j => j.id == a.id) = some a := by
  induction l with
  | nil => cases ha
  | cons x xs ih =>
    rw [List.map_cons, List.nodup_cons] at hn
    rcases List.mem_cons.mp ha with rfl | ha2
    · simp [List.find?]
    · have hx : (x.id == a.id) = false := by
        refine beq_eq_false_iff_ne.mpr ?_
        intro hxe
        exact hn.1 (hxe ▸ List.mem_map_of_mem Item.id ha2)
      rw [List.find?, hx]
      exact ih hn.2 ha2

theorem findIdx?_decomp {α : Type} {p : α → Bool} :
    ∀ {l : List α} {idx : Nat}, l.findIdx? p = some idx →
      ∃ l₁ a l₂, l = l₁ ++ a :: l₂ ∧ l₁.length = idx ∧ p a = true ∧ ∀ x ∈ l₁, p x = false := by
  intro l
  induction l with
  | nil => intro idx h; cases h
  | cons x xs ih =>
    intro idx h
    rw [List.findIdx?_cons] at h
    by_cases hx : p x
    · rw [if_pos hx] at h
      cases h
      exact ⟨[], x, xs, rfl, rfl, hx, by intro y hy; cases hy⟩
    · rw [if_neg hx, List.findIdx?_start_succ, Option.map_eq_some'] at h
      rcases h with ⟨k, hk, rfl⟩
      rcases ih hk with ⟨l₁, a, l₂, rfl, hlen, hpa, hall⟩
      refine ⟨x :: l₁, a, l₂, rfl, by simp [hlen], hpa, ?_⟩
      intro y hy
      rcases List.mem_cons.mp hy with rfl | hy2
      · exact Bool.not_eq_true _ ▸ by simpa using hx
      · exact hall y hy2

theorem getElem?_append_cons {α : Type} :
    ∀ (l₁ : List α) (x : α) (l₂ : List α), (l₁ ++ x :: l₂)[l₁.length]? = some x := by
  intro l₁
  induction l₁ with
  | nil => intro x l₂; simp
  | cons y ys ih => intro x l₂; simpa using ih x l₂

theorem getElem?_append_cons_succ {α : Type} :
    ∀ (l₁ : List α) (x y : α) (l₂ : List α),
      (l₁ ++ x :: y :: l₂)[l₁.length + 1]? = some y := by
  intro l₁ x y l₂
  have h := getElem?_append_cons (l₁ ++ [x]) y l₂
  simpa using h

theorem applyW_id (w : String × Int) (j : Item) : (applyW w j).id = j.id := by
  unfold applyW
  split <;> rfl

theorem applyW_day (w : String × Int) (j : Item) : (applyW w j).day = j.day := by
  unfold applyW
  split <;> rfl

theorem applyW_row (w : String × Int) (j : Item) : (applyW w j).row = j.row := by
  unfold applyW
  split <;> rfl

theorem inCell_applyW (d r : String) (w : String × Int) (j : Item) :
    inCell d r (applyW w j) = inCell d r j := by
  unfold inCell
  rw [applyW_day, applyW_row]

theorem applyW_not_mine {w : String × Int} {j : Item} (h : j.id ≠ w.1) :
    applyW w j = j := by
  unfold applyW
  rw [if_neg]
  simp [h]

theorem applyW_mine {w : String × Int} {j : Item} (h : j.id = w.1) :
    applyW w j = { j with ord := w.2 } := by
  unfold applyW
  rw [if_pos (by simp [h])]

theorem applyWrites_pair (items : List Item) (w₁ w₂ : String × Int) :
    applyWrites items [w₁, w₂] = items.map (fun j => applyW w₂ (applyW w₁ j)) := by
  simp [applyWrites, applyWrite, List.map_map]

theorem filter_cell_map {d r : String} {f : Item → Item}
    (hf : ∀ j, inCell d r (f j) = inCell d r j) (items : List Item) :
    (items.map f).filter (inCell d r) = (items.filter (inCell d r)).map f := by
  rw [List.filter_map]
  congr 1
  exact List.filter_congr fun x _ => hf x

theorem pairwise_swap_mid {l₁ l₂ : List Item} {P I I2 P2 : Item}
    (hpw : List.Pairwise (fun a b => ordLe a b = true) (l₁ ++ P :: I :: l₂))
    (hI2 : I2.ord = P.ord) (hP2 : P2.ord = I.ord) :
    List.Pairwise (fun a b => ordLe a b = true) (l₁ ++ I2 :: P2 :: l₂) := by
  rw [List.pairwise_append] at hpw ⊢
  obtain ⟨h1, h2, h3⟩ := hpw
  rw [List.pairwise_cons] at h2
  obtain ⟨hP, h2m⟩ := h2
  rw [List.pairwise_cons] at h2m
  obtain ⟨hI, hpl2⟩ := h2m
  have hPI : P.ord ≤ I.ord := ordLe_iff.mp (hP I (List.mem_cons_self _ _))
  refine ⟨h1, ?_, ?_⟩
  · rw [List.pairwise_cons]
    refine ⟨?_, ?_⟩
    · intro b hb
      rcases List.mem_cons.mp hb with rfl | hb2
      · rw [ordLe_iff, hI2, hP2]
        exact hPI
      · have hb3 := ordLe_iff.mp (hI b hb2)
        rw [ordLe_iff, hI2]
        omega
    · rw [List.pairwise_cons]
      refine ⟨?_, hpl2⟩
      intro b hb
      have hb3 := ordLe_iff.mp (hI b hb)
      rw [ordLe_iff, hP2]
      omega
  · intro a ha b hb
    have haP := ordLe_iff.mp (h3 a ha P (List.mem_cons_self _ _))
    have haI := ordLe_iff.mp
      (h3 a ha I (List.mem_cons.mpr (Or.inr (List.mem_cons_self _ _))))
    rcases List.mem_cons.mp hb with rfl | hb2
    · rw [ordLe_iff, hI2]
      omega
    rcases List.mem_cons.mp hb2 with rfl | hb3
    · rw [ordLe_iff, hP2]
      omega
    · exact h3 a ha b (by simp [hb3])

theorem moveUp_core (items : List Item) (it : Item)
    (hids : (items.map Item.id).Nodup) (hit : it ∈ items)
    (hord : ((items.filter (inCell it.day it.row)).map Item.ord).Nodup)
    {idx : Nat}
    (hidx : List.findIdx? (fun i => i.id == it.id) (sortedCell items it.day it.row) = some idx)
    (h1 : 1 ≤ idx) :
    moveUpThenDown items it = items := by
  have hcellperm : (sortedCell items it.day it.row).Perm
      (items.filter (inCell it.day it.row)) :=
    List.mergeSort_perm _ ordLe
  have hcellpw : List.Pairwise (fun a b => ordLe a b = true)
      (sortedCell items it.day it.row) :=
    List.sorted_mergeSort ordLe_trans ordLe_total _
  obtain ⟨m₁, I, l₂, hcelleq, hm1len, hpI, hm1all⟩ := findIdx?_decomp hidx
  rcases List.eq_nil_or_concat m₁ with rfl | ⟨l₁, P, rfl⟩
  · simp at hm1len
    omega
  have hcell : sortedCell items it.day it.row = l₁ ++ P :: I :: l₂ := by
    simpa [List.concat_eq_append, List.append_assoc] using hcelleq
  have hl1len : l₁.length = idx - 1 := by
    rw [List.concat_eq_append, List.length_append] at hm1len
    simp at hm1len
    omega
  have hPm1 : P ∈ l₁.concat P := by
    rw [List.concat_eq_append]
    exact List.mem_append.mpr (Or.inr (List.mem_cons_self _ _))
  have hpP : (fun i : Item => i.id == it.id) P = false := hm1all P hPm1
  have hP_id_ne : P.id ≠ it.id := by
    intro h
    rw [show ((fun i : Item => i.id == it.id) P = false) =
      ((P.id == it.id) = false) from rfl] at hpP
    exact absurd (beq_iff_eq.mpr h) (by simp [hpP])
  have hl1all : ∀ x ∈ l₁, x.id ≠ it.id := by
    intro x hx h
    have := hm1all x (by rw [List.concat_eq_append]; exact List.mem_append.mpr (Or.inl hx))
    simp only [beq_iff_eq] at this
    exact absurd h (by simpa using this)
  -- identify I with the argument item
  have hI_id : I.id = it.id := by simpa using hpI
  have hIcell : I ∈ sortedCell items it.day it.row := by
    rw [hcell]
    exact List.mem_append.mpr (Or.inr (List.mem_cons.mpr (Or.inr (List.mem_cons_self _ _))))
  have hIitems : I ∈ items :=
    (List.mem_filter.mp (hcellperm.subset hIcell)).1
  have hIeq : I = it := mem_eq_of_id_eq hids hIitems hit hI_id
  subst hIeq
  have hPcell : P ∈ sortedCell items I.day I.row := by
    rw [hcell]
    exact List.mem_append.mpr (Or.inr (List.mem_cons_self _ _))
  have hPitems : P ∈ items :=
    (List.mem_filter.mp (hcellperm.subset hPcell)).1
  -- id distinctness inside the cell
  have hidscellF : ((items.filter (inCell I.day I.row)).map Item.id).Nodup :=
    ((List.filter_sublist _).map Item.id).nodup hids
  have hidscell : ((sortedCell items I.day I.row).map Item.id).Nodup :=
    ((hcellperm.map Item.id).symm).nodup hidscellF
  have hidpw : List.Pairwise (fun a b : Item => a.id ≠ b.id)
      (l₁ ++ P :: I :: l₂) := by
    rw [← hcell]
    rw [List.Nodup, List.pairwise_map] at hidscell
    exact hidscell
  have hl1P : ∀ x ∈ l₁, x.id ≠ P.id := by
    rw [List.pairwise_append] at hidpw
    intro x hx
    exact hidpw.2.2 x hx P (List.mem_cons_self _ _)
  have hl2P : ∀ x ∈ l₂, P.id ≠ x.id := by
    rw [List.pairwise_append, List.pairwise_cons] at hidpw
    intro x hx
    exact hidpw.2.1.1 x (List.mem_cons.mpr (Or.inr hx))
  have hl2I : ∀ x ∈ l₂, I.id ≠ x.id := by
    rw [List.pairwise_append, List.pairwise_cons, List.pairwise_cons] at hidpw
    intro x hx
    exact hidpw.2.1.2.1 x hx
  -- the writes of the up move
  have hgetP : (sortedCell items I.day I.row)[idx - 1]? = some P := by
    rw [hcell, ← hl1len]
    exact getElem?_append_cons l₁ P (I :: l₂)
  have hidx0 : idx ≠ 0 := by omega
  have hup : moveOneUpWrites items I = [(I.id, P.ord), (P.id, I.ord)] := by
    unfold moveOneUpWrites
    rw [hidx]
    dsimp only
    rw [if_neg hidx0, hgetP]
  -- the state after the up move, as a map over the old state
  have hs1 : applyWrites items (moveOneUpWrites items I) =
      items.map (fun j => applyW (P.id, I.ord) (applyW (I.id, P.ord) j)) := by
    rw [hup]
    exact applyWrites_pair items _ _
  set f : Item → Item := fun j => applyW (P.id, I.ord) (applyW (I.id, P.ord) j) with hf
  have hfid : ∀ j, (f j).id = j.id := by
    intro j
    rw [hf]
    simp only [applyW_id]
  have hfcell : ∀ j, inCell I.day I.row (f j) = inCell I.day I.row j := by
    intro j
    rw [hf]
    simp only [inCell_applyW]
  have hfI : f I = { I with ord := P.ord } := by
    rw [hf]
    dsimp only
    have h1 : applyW (I.id, P.ord) I = { I with ord := P.ord } := applyW_mine rfl
    rw [h1]
    exact applyW_not_mine fun h => hP_id_ne h.symm
  have hfP : f P = { P with ord := I.ord } := by
    rw [hf]
    dsimp only
    have h1 : applyW (I.id, P.ord) P = P := applyW_not_mine hP_id_ne
    rw [h1]
    exact applyW_mine rfl
  have hfother : ∀ x, x.id ≠ I.id → x.id ≠ P.id → f x = x := by
    intro x hx1 hx2
    rw [hf]
    dsimp only
    have hx1e : applyW (I.id, P.ord) x = x := applyW_not_mine hx1
    have hx2e : applyW (P.id, I.ord) x = x := applyW_not_mine hx2
    rw [hx1e, hx2e]
  -- the refreshed cell after the up move
  set I2 : Item := { I with ord := P.ord } with hI2
  set P2 : Item := { P with ord := I.ord } with hP2
  have hmapl1 : l₁.map f = l₁ :=
    List.map_congr_left (fun x hx => hfother x (fun h => hl1all x hx (hI_id ▸ h)) (hl1P x hx))
      |>.trans (List.map_id l₁)
  have hmapl2 : l₂.map f = l₂ :=
    List.map_congr_left
      (fun x hx => hfother x (fun h => hl2I x hx h.symm) (fun h => hl2P x hx h.symm))
      |>.trans (List.map_id l₂)
  have hmapfcell : (sortedCell items I.day I.row).map f = l₁ ++ P2 :: I2 :: l₂ := by
    rw [hcell, List.map_append, List.map_cons, List.map_cons, hmapl1, hmapl2, hfI, hfP]
  have hfilter_s1 :
      (applyWrites items (moveOneUpWrites items I)).filter (inCell I.day I.row) =
        (items.filter (inCell I.day I.row)).map f := by
    rw [hs1]
    exact filter_cell_map hfcell items
  -- the sorted cell of the new state is the two-element swap of the old one
  have hLperm : (l₁ ++ I2 :: P2 :: l₂).Perm
      ((applyWrites items (moveOneUpWrites items I)).filter (inCell I.day I.row)) := by
    rw [hfilter_s1]
    have hswap : (l₁ ++ I2 :: P2 :: l₂).Perm (l₁ ++ P2 :: I2 :: l₂) :=
      List.Perm.append_left l₁ (List.Perm.swap P2 I2 l₂)
    have hchain : (l₁ ++ P2 :: I2 :: l₂).Perm ((items.filter (inCell I.day I.row)).map f) := by
      rw [← hmapfcell]
      exact (hcellperm.map f)
    exact hswap.trans hchain
  have hLpw : List.Pairwise (fun a b => ordLe a b = true) (l₁ ++ I2 :: P2 :: l₂) := by
    refine pairwise_swap_mid (P := P) (I := I) ?_ rfl rfl
    rw [← hcell]
    exact hcellpw
  have hordcell : ((sortedCell items I.day I.row).map Item.ord).Nodup :=
    ((hcellperm.map Item.ord).symm).nodup hord
  have hLord : ((l₁ ++ I2 :: P2 :: l₂).map Item.ord).Nodup := by
    have hsame : (l₁ ++ I2 :: P2 :: l₂).map Item.ord =
        (sortedCell items I.day I.row).map Item.ord := by
      rw [hcell]
      simp [hI2, hP2]
    rw [hsame]
    exact hordcell
  have hcellS1perm : (sortedCell (applyWrites items (moveOneUpWrites items I)) I.day I.row).Perm
      ((applyWrites items (moveOneUpWrites items I)).filter (inCell I.day I.row)) :=
    List.mergeSort_perm _ ordLe
  have hcellS1pw : List.Pairwise (fun a b => ordLe a b = true)
      (sortedCell (applyWrites items (moveOneUpWrites items I)) I.day I.row) :=
    List.sorted_mergeSort ordLe_trans ordLe_total _
  have hcellS1 : l₁ ++ I2 :: P2 :: l₂ =
      sortedCell (applyWrites items (moveOneUpWrites items I)) I.day I.row :=
    sorted_cell_unique (hLperm.trans hcellS1perm.symm) hLpw hcellS1pw hLord
  -- the refreshed card
  have hs1ids : ((applyWrites items (moveOneUpWrites items I)).map Item.id).Nodup := by
    rw [hs1, List.map_map]
    have : (Item.id ∘ f) = Item.id := funext fun j => hfid j
    rw [this]
    exact hids
  have hfImem : f I ∈ applyWrites items (moveOneUpWrites items I) := by
    rw [hs1]
    exact List.mem_map_of_mem f hIitems
  have hrefresh : refreshItem (applyWrites items (moveOneUpWrites items I)) I = I2 := by
    unfold refreshItem
    have hfind := find_by_id hs1ids hfImem
    rw [hfid I] at hfind
    rw [hfind, hfI]
    rfl
  -- the writes of the down move
  have hfindL : List.findIdx? (fun i => i.id == I.id) (l₁ ++ I2 :: P2 :: l₂) =
      some l₁.length := by
    rw [List.findIdx?_append]
    have hnone : List.findIdx? (fun i : Item => i.id == I.id) l₁ = none :=
      List.findIdx?_eq_none_iff.mpr fun x hx => by
        simpa using fun h => hl1all x hx (hI_id ▸ h)
    rw [hnone]
    have hhead : List.findIdx? (fun i : Item => i.id == I.id) (I2 :: P2 :: l₂) = some 0 := by
      rw [List.findIdx?_cons, if_pos]
      simp [hI2]
    rw [hhead]
    simp
  have hdown : moveOneDownWrites (applyWrites items (moveOneUpWrites items I)) I2 =
      [(I.id, I.ord), (P.id, P.ord)] := by
    unfold moveOneDownWrites
    have hscene : sortedCell (applyWrites items (moveOneUpWrites items I)) I2.day I2.row =
        l₁ ++ I2 :: P2 :: l₂ := hcellS1.symm
    rw [show (fun i : Item => i.id == I2.id) = (fun i : Item => i.id == I.id) from rfl,
      hscene, hfindL]
    dsimp only
    have hlen : (l₁ ++ I2 :: P2 :: l₂).length = l₁.length + l₂.length + 2 := by
      simp
      omega
    rw [if_neg (by omega), getElem?_append_cons_succ l₁ I2 P2 l₂]
  -- the round trip restores every row
  have hfinal : ∀ j ∈ items,
      applyW (P.id, P.ord) (applyW (I.id, I.ord) (f j)) = j := by
    intro j hj
    by_cases hj1 : j.id = I.id
    · have hjI : j = I := mem_eq_of_id_eq hids hj hIitems hj1
      subst hjI
      rw [hfI]
      have h1 : applyW (j.id, j.ord) { j with ord := P.ord } = j := by
        have h2 : applyW (j.id, j.ord) { j with ord := P.ord } =
            { { j with ord := P.ord } with ord := j.ord } := applyW_mine rfl
        rw [h2]
      rw [h1]
      exact applyW_not_mine fun h => hP_id_ne h.symm
    · by_cases hj2 : j.id = P.id
      · have hjP : j = P := mem_eq_of_id_eq hids hj hPitems hj2
        subst hjP
        rw [hfP]
        have h1 : applyW (I.id, I.ord) { j with ord := I.ord } = { j with ord := I.ord } :=
          applyW_not_mine hj1
        rw [h1]
        have h2 : applyW (j.id, j.ord) { j with ord := I.ord } =
            { { j with ord := I.ord } with ord := j.ord } := applyW_mine rfl
        rw [h2]
      · have h1 : applyW (I.id, I.ord) j = j := applyW_not_mine hj1
        have h2 : applyW (P.id, P.ord) j = j := applyW_not_mine hj2
        rw [hfother j hj1 hj2, h1, h2]
  unfold moveUpThenDown
  rw [hrefresh, hdown, applyWrites_pair, hs1, List.map_map]
  calc items.map ((fun j => applyW (P.id, P.ord) (applyW (I.id, I.ord) j)) ∘ f)
      = items.map id := List.map_congr_left fun j hj => hfinal j hj
    _ = items := List.map_id items

theorem moveOneUpWrites_top (items : List Item) (it : Item)
    (hidx : List.findIdx? (fun i => i.id == it.id) (sortedCell items it.day it.row) = some 0) :
    moveOneUpWrites items it = [] := by
  unfold moveOneUpWrites
  rw [hidx]
  dsimp only
  rw [if_pos rfl]

theorem moveOneUpWrites_spec (items : List Item) (it : Item) {idx : Nat}
    (hidx : List.findIdx? (fun i => i.id == it.id) (sortedCell items it.day it.row) = some idx)
    (h1 : 1 ≤ idx) :
    ∃ prev, (sortedCell items it.day it.row)[idx - 1]? = some prev ∧
      moveOneUpWrites items it = [(it.id, prev.ord), (prev.id, it.ord)] := by
  have hlt : idx < (sortedCell items it.day it.row).length :=
    (List.findIdx?_eq_some_iff_getElem.mp hidx).1
  have hlt1 : idx - 1 < (sortedCell items it.day it.row).length := by omega
  refine ⟨(sortedCell items it.day it.row)[idx - 1], List.getElem?_eq_getElem hlt1, ?_⟩
  unfold moveOneUpWrites
  rw [hidx]
  dsimp only
  rw [if_neg (by omega), List.getElem?_eq_getElem hlt1]

theorem moveOneDownWrites_bottom (items : List Item) (it : Item) {idx : Nat}
    (hidx : List.findIdx? (fun i => i.id == it.id) (sortedCell items it.day it.row) = some idx)
    (h : (sortedCell items it.day it.row).length ≤ idx + 1) :
    moveOneDownWrites items it = [] := by
  unfold moveOneDownWrites
  rw [hidx]
  dsimp only
  rw [if_pos (by omega)]

theorem moveOneDownWrites_spec (items : List Item) (it : Item) {idx : Nat}
    (hidx : List.findIdx? (fun i => i.id == it.id) (sortedCell items it.day it.row) = some idx)
    (h2 : idx + 1 < (sortedCell items it.day it.row).length) :
    ∃ next, (sortedCell items it.day it.row)[idx + 1]? = some next ∧
      moveOneDownWrites items it = [(it.id, next.ord), (next.id, it.ord)] := by
  refine ⟨(sortedCell items it.day it.row)[idx + 1], List.getElem?_eq_getElem h2, ?_⟩
  unfold moveOneDownWrites
  rw [hidx]
  dsimp only
  rw [if_neg (by omega), List.getElem?_eq_getElem h2]

theorem sortedCell_sampleAB :
    sortedCell [sampleA, sampleB] sampleB.day sampleB.row = [sampleA, sampleB] := by
  unfold sortedCell
  have hfil : [sampleA, sampleB].filter (inCell sampleB.day sampleB.row) =
      [sampleA, sampleB] := by decide
  rw [hfil]
  exact List.mergeSort_of_sorted (by decide)

theorem foldl_max_mem (x : Int) (xs : List Int) : xs.foldl max x ∈ x :: xs := by
  induction xs generalizing x with
  | nil => simp
  | cons y ys ih =>
    simp only [List.foldl_cons]
    rcases List.mem_cons.mp (ih (max x y)) with h1 | h1
    · rcases max_choice x y with h2 | h2 <;> rw [h1, h2]
      · exact List.mem_cons_self _ _
      · exact List.mem_cons.mpr (Or.inr (List.mem_cons_self _ _))
    · exact List.mem_cons.mpr (Or.inr (List.mem_cons.mpr (Or.inr h1)))

theorem le_foldl_max (x : Int) (xs : List Int) : ∀ y ∈ x :: xs, y ≤ xs.foldl max x := by
  induction xs generalizing x with
  | nil =>
    intro y hy
    simp at hy
    simp [hy]
  | cons z zs ih =>
    intro y hy
    simp only [List.foldl_cons]
    rcases List.mem_cons.mp hy with rfl | hy2
    · exact le_trans (le_max_left y z) (ih (max y z) (max y z) (List.mem_cons_self _ _))
    rcases List.mem_cons.mp hy2 with rfl | hy3
    · exact le_trans (le_max_right x y) (ih (max x y) (max x y) (List.mem_cons_self _ _))
    · exact ih (max x z) y (List.mem_cons.mpr (Or.inr hy3))

theorem nextOrdFor_gt (cell : List Item) : ∀ j ∈ cell, j.ord < nextOrdFor cell := by
  intro j hj
  unfold nextOrdFor
  cases hc : cell.map Item.ord with
  | nil =>
    rw [List.map_eq_nil_iff] at hc
    subst hc
    cases hj
  | cons x xs =>
    have hmem : j.ord ∈ x :: xs := hc ▸ List.mem_map_of_mem Item.ord hj
    have := le_foldl_max x xs j.ord hmem
    dsimp only
    omega

theorem nextOrdFor_succ_mem (cell : List Item) (h : cell ≠ []) :
    ∃ j ∈ cell, nextOrdFor cell = j.ord + 1 := by
  unfold nextOrdFor
  cases hc : cell.map Item.ord with
  | nil =>
    rw [List.map_eq_nil_iff] at hc
    exact absurd hc h
  | cons x xs =>
    have hmem : xs.foldl max x ∈ x :: xs := foldl_max_mem x xs
    rw [← hc] at hmem
    rcases List.mem_map.mp hmem with ⟨j, hj, hje⟩
    exact ⟨j, hj, by rw [hje]⟩

theorem findIdx?_head_self (d : Int) (ks : List Int) :
    List.findIdx? (fun k => k == d) (d :: ks) = some 0 := by
  rw [List.findIdx?_cons, if_pos (by simp)]

theorem findIdx?_last (ks : List Int) (d : Int) (hnot : d ∉ ks) :
    List.findIdx? (fun k => k == d) (ks ++ [d]) = some ks.length := by
  rw [List.findIdx?_append]
  have hnone : List.findIdx? (fun k : Int => k == d) ks = none :=
    List.findIdx?_eq_none_iff.mpr fun x hx =>
      beq_eq_false_iff_ne.mpr fun he => hnot (he ▸ hx)
  rw [hnone]
  simp [List.findIdx?_cons]

theorem retryGo_success {E A : Type} (fn : Nat → Except E A) (base : ℚ) :
    ∀ (n k i : Nat) (last : Option E) (a : A), k < n →
      (∀ j, j < k → ∃ e, fn (i + j) = Except.error e) →
      fn (i + k) = Except.ok a →
      retryGo fn base n i last =
        (Except.ok a, (List.range k).map fun j => backoffDelay base (i + j)) := by
  intro n
  induction n with
  | zero =>
    intro k i last a hk
    omega
  | succ n ih =>
    intro k i last a hk hfail hok
    cases k with
    | zero =>
      unfold retryGo
      rw [show fn i = Except.ok a from by simpa using hok]
      simp
    | succ k =>
      obtain ⟨e, he⟩ := hfail 0 (by omega)
      rw [Nat.add_zero] at he
      unfold retryGo
      rw [he]
      dsimp only
      have hrec := ih k (i + 1) (some e) a (by omega)
        (fun j hj => by
          have h2 := hfail (j + 1) (by omega)
          have harg : i + (j + 1) = i + 1 + j := by omega
          rw [harg] at h2
          exact h2)
        (by
          have harg : i + (k + 1) = i + 1 + k := by omega
          rw [harg] at hok
          exact hok)
      rw [hrec]
      have hwaits : (List.range (k + 1)).map (fun j => backoffDelay base (i + j)) =
          backoffDelay base i ::
            (List.range k).map fun j => backoffDelay base (i + 1 + j) := by
        rw [List.range_succ_eq_map, List.map_cons, List.map_map]
        refine congrArg₂ _ (by rw [Nat.add_zero]) ?_
        refine List.map_congr_left fun j hj => ?_
        have : i + (j + 1) = i + 1 + j := by omega
        simp [Function.comp, this]
      rw [hwaits]

theorem retryGo_allfail {E A : Type} (fn : Nat → Except E A) (base : ℚ) (err : Nat → E) :
    ∀ (n i : Nat) (last : Option E), 0 < n →
      (∀ j, j < n → fn (i + j) = Except.error (err (i + j))) →
      retryGo fn base n i last =
        (Except.error (some (err (i + n - 1))),
          (List.range n).map fun j => backoffDelay base (i + j)) := by
  intro n
  induction n with
  | zero =>
    intro i last h0
    omega
  | succ n ih =>
    intro i last h0 hfail
    have he : fn i = Except.error (err i) := by
      have := hfail 0 (by omega)
      simpa using this
    unfold retryGo
    rw [he]
    dsimp only
    cases n with
    | zero =>
      unfold retryGo
      simp [backoffDelay, List.range_succ]
    | succ m =>
      have hrec := ih (i + 1) (some (err i)) (by omega)
        (fun j hj => by
          have h2 := hfail (j + 1) (by omega)
          have harg : i + (j + 1) = i + 1 + j := by omega
          rw [harg] at h2
          exact h2)
      rw [hrec]
      have hidx : i + 1 + (m + 1) - 1 = i + (m + 1 + 1) - 1 := by omega
      rw [hidx]
      have hwaits : (List.range (m + 1 + 1)).map (fun j => backoffDelay base (i + j)) =
          backoffDelay base i ::
            (List.range (m + 1)).map fun j => backoffDelay base (i + 1 + j) := by
        rw [List.range_succ_eq_map, List.map_cons, List.map_map]
        refine congrArg₂ _ (by rw [Nat.add_zero]) ?_
        refine List.map_congr_left fun j hj => ?_
        have : i + (j + 1) = i + 1 + j := by omega
        simp [Function.comp, this]
      rw [hwaits]

/-! ### Claim theorems -/

/-- C1: in a (day,row) cell, for an item with a preceding neighbour in
the ord-sorted order, `moveOneUp` writes the neighbour ord onto the item
and then the item prior ord onto the neighbour (`moveOneDown`
symmetrically with the following neighbour); with no neighbour in the
requested direction no write occurs; and, with no concurrent mutation,
`moveOneUp` followed by `moveOneDown` on the same item restores the
pre-move ord assignment. -/
theorem moveOne_swap_and_roundtrip (items : List Item) (it : Item)
    (hids : (items.map Item.id).Nodup) (hit : it ∈ items)
    (hord : ((items.filter (inCell it.day it.row)).map Item.ord).Nodup) :
    ∀ idx, List.findIdx? (fun i => i.id == it.id) (sortedCell items it.day it.row) = some idx →
      (1 ≤ idx →
        ∃ prev, (sortedCell items it.day it.row)[idx - 1]? = some prev ∧
          moveOneUpWrites items it = [(it.id, prev.ord), (prev.id, it.ord)]) ∧
      (idx = 0 → moveOneUpWrites items it = []) ∧
      (idx + 1 < (sortedCell items it.day it.row).length →
        ∃ next, (sortedCell items it.day it.row)[idx + 1]? = some next ∧
          moveOneDownWrites items it = [(it.id, next.ord), (next.id, it.ord)]) ∧
      ((sortedCell items it.day it.row).length ≤ idx + 1 → moveOneDownWrites items it = []) ∧
      (1 ≤ idx → moveUpThenDown items it = items) := by
  intro idx hidx
  refine ⟨?_, ?_, ?_, ?_, ?_⟩
  · intro h1
    exact moveOneUpWrites_spec items it hidx h1
  · intro h0
    subst h0
    exact moveOneUpWrites_top items it hidx
  · intro h2
    exact moveOneDownWrites_spec items it hidx h2
  · intro h3
    exact moveOneDownWrites_bottom items it hidx h3
  · intro h1
    exact moveUp_core items it hids hit hord hidx h1

/-- Witness for C1 on a concrete two-card cell. -/
theorem moveOne_swap_and_roundtrip_witness :
    (([sampleA, sampleB].map Item.id).Nodup ∧ sampleB ∈ [sampleA, sampleB] ∧
      (([sampleA, sampleB].filter (inCell sampleB.day sampleB.row)).map Item.ord).Nodup ∧
      List.findIdx? (fun i => i.id == sampleB.id)
        (sortedCell [sampleA, sampleB] sampleB.day sampleB.row) = some 1 ∧
      (1 : Nat) ≤ 1) ∧
    moveUpThenDown [sampleA, sampleB] sampleB = [sampleA, sampleB] :=
  ⟨⟨by decide, by decide, by decide, by rw [sortedCell_sampleAB]; decide, by decide⟩,
    (moveOne_swap_and_roundtrip [sampleA, sampleB] sampleB (by decide) (by decide)
      (by decide) 1 (by rw [sortedCell_sampleAB]; decide)).2.2.2.2 (by decide)⟩

/-- C2: an add performed by an effective editor on a loaded board alerts
and writes nothing when name, dx and room are all empty after trimming;
otherwise it writes a new Item into the requested (day,row) cell whose
ord is the maximum cached ord of that cell plus one (1 when the cell has
no cached items) and triggers a refresh. -/
theorem onSubmitAdd_editor_contract (cid : String) (items : List Item)
    (draftRow day : String) (vals : AddVals) :
    (jsTrim vals.name = "" ∧ jsTrim vals.dx = "" ∧ jsTrim vals.room = "" →
      onSubmitAdd Role.editor (some cid) items draftRow day vals =
        ⟨none, true, false⟩) ∧
    (¬(jsTrim vals.name = "" ∧ jsTrim vals.dx = "" ∧ jsTrim vals.room = "") →
      ∃ p : Item,
        onSubmitAdd Role.editor (some cid) items draftRow day vals =
          ⟨some p, false, true⟩ ∧
        p.day = day ∧ p.row = draftRow ∧
        (∀ j ∈ items.filter (inCell day draftRow), j.ord < p.ord) ∧
        (items.filter (inCell day draftRow) = [] → p.ord = 1) ∧
        (items.filter (inCell day draftRow) ≠ [] →
          ∃ j ∈ items.filter (inCell day draftRow), p.ord = j.ord + 1)) := by
  constructor
  · rintro ⟨h1, h2, h3⟩
    unfold onSubmitAdd
    rw [if_neg (by simp)]
    dsimp only
    rw [if_pos (by simp [h1, h2, h3])]
  · intro hne
    unfold onSubmitAdd
    rw [if_neg (by simp)]
    dsimp only
    rw [if_neg (by
      simp only [Bool.and_eq_true, beq_iff_eq]
      intro hcon
      exact hne ⟨hcon.1.1, hcon.1.2, hcon.2⟩)]
    refine ⟨_, rfl, rfl, rfl, ?_, ?_, ?_⟩
    · exact nextOrdFor_gt _
    · intro hcell
      rw [show (nextOrdFor (items.filter (inCell day draftRow)) : Int) =
        nextOrdFor [] from by rw [hcell]]
      rfl
    · intro hcell
      exact nextOrdFor_succ_mem _ hcell

/-- Witness for C2 on a concrete non-empty add into a one-card cell. -/
theorem onSubmitAdd_editor_contract_witness :
    (¬(jsTrim "  x " = "" ∧ jsTrim "" = "" ∧ jsTrim "" = "")) ∧
    (∃ p : Item,
      onSubmitAdd Role.editor (some "center-1") [sampleA] sampleA.row sampleA.day
        ⟨"  x ", "", "", "Coronaria"⟩ = ⟨some p, false, true⟩ ∧
      p.day = sampleA.day ∧ p.row = sampleA.row ∧
      (∀ j ∈ [sampleA].filter (inCell sampleA.day sampleA.row), j.ord < p.ord) ∧
      ([sampleA].filter (inCell sampleA.day sampleA.row) = [] → p.ord = 1) ∧
      ([sampleA].filter (inCell sampleA.day sampleA.row) ≠ [] →
        ∃ j ∈ [sampleA].filter (inCell sampleA.day sampleA.row), p.ord = j.ord + 1)) :=
  ⟨by decide,
    (onSubmitAdd_editor_contract "center-1" [sampleA] sampleA.row sampleA.day
      ⟨"  x ", "", "", "Coronaria"⟩).2 (by decide)⟩

/-- C3: from the last visible day `moveDayRight` targets the next
business day and from the first visible day `moveDayLeft` targets the
previous business day; Friday moves +3 to Monday, Monday moves -3 to
Friday, Saturday and Sunday normalize to the adjacent weekday, and
neither helper ever produces a Saturday or Sunday. -/
theorem business_day_moves (dayKeys ks : List Int) (d : Int) :
    (dayKeys = ks ++ [d] → d ∉ ks →
      moveDayRightDest dayKeys d = some (nextBusinessDay d)) ∧
    (dayKeys = d :: ks → moveDayLeftDest dayKeys d = some (prevBusinessDay d)) ∧
    (dayOfWeek d = 5 → nextBusinessDay d = d + 3 ∧ dayOfWeek (nextBusinessDay d) = 1) ∧
    (dayOfWeek d = 1 → prevBusinessDay d = d - 3 ∧ dayOfWeek (prevBusinessDay d) = 5) ∧
    (dayOfWeek d = 6 → nextBusinessDay d = d + 2 ∧ prevBusinessDay d = d - 1) ∧
    (dayOfWeek d = 0 → nextBusinessDay d = d + 1 ∧ prevBusinessDay d = d - 2) ∧
    dayOfWeek (nextBusinessDay d) ≠ 0 ∧ dayOfWeek (nextBusinessDay d) ≠ 6 ∧
    dayOfWeek (prevBusinessDay d) ≠ 0 ∧ dayOfWeek (prevBusinessDay d) ≠ 6 := by
  refine ⟨?_, ?_, ?_, ?_, ?_, ?_, ?_, ?_, ?_, ?_⟩
  · intro hk hnot
    subst hk
    unfold moveDayRightDest
    rw [findIdx?_last ks d hnot]
    dsimp only
    rw [if_neg (by simp), if_pos (by simp)]
  · intro hk
    subst hk
    unfold moveDayLeftDest
    rw [findIdx?_head_self]
    dsimp only
    rw [if_neg (by omega)]
  · intro h
    unfold nextBusinessDay
    rw [if_pos h]
    unfold dayOfWeek at h ⊢
    omega
  · intro h
    unfold prevBusinessDay
    rw [if_pos h]
    unfold dayOfWeek at h ⊢
    omega
  · intro h
    unfold nextBusinessDay prevBusinessDay
    unfold dayOfWeek at h ⊢
    constructor
    · rw [if_neg (by omega), if_pos (by omega)]
    · rw [if_neg (by omega), if_neg (by omega), if_pos (by omega)]
  · intro h
    unfold nextBusinessDay prevBusinessDay
    unfold dayOfWeek at h ⊢
    constructor
    · rw [if_neg (by omega), if_neg (by omega), if_pos (by omega)]
    · rw [if_neg (by omega), if_pos (by omega)]
  · unfold nextBusinessDay dayOfWeek
    split_ifs <;> omega
  · unfold nextBusinessDay dayOfWeek
    split_ifs <;> omega
  · unfold prevBusinessDay dayOfWeek
    split_ifs <;> omega
  · unfold prevBusinessDay dayOfWeek
    split_ifs <;> omega

/-- Witness for C3 on the business week Monday 1970-01-05 (day 4) to
Friday 1970-01-09 (day 8). -/
theorem business_day_moves_witness :
    (([4, 5, 6, 7, 8] : List Int) = ([4, 5, 6, 7] : List Int) ++ [8] ∧
      (8 : Int) ∉ ([4, 5, 6, 7] : List Int) ∧ dayOfWeek 8 = 5) ∧
    moveDayRightDest [4, 5, 6, 7, 8] 8 = some (nextBusinessDay 8) ∧
    nextBusinessDay 8 = 8 + 3 ∧ dayOfWeek (nextBusinessDay 8) = 1 :=
  ⟨⟨by decide, by decide, by decide⟩,
    (business_day_moves [4, 5, 6, 7, 8] [4, 5, 6, 7] 8).1 (by decide) (by decide),
    (business_day_moves [4, 5, 6, 7, 8] [4, 5, 6, 7] 8).2.2.1 (by decide)⟩

/-- C4 counterexample: the role state is editor, then a single auth-state
event whose role lookup fails (or merely the optimistic reset at the head
of the handler) transitions the role back to viewer, refuting the claim
that no later failed or stale lookup ever downgrades a confirmed
editor. -/
theorem role_downgrade_counterexample :
    sessRun Role.editor [SessEvent.authResolved true none] = Role.viewer ∧
    sessRun Role.editor [SessEvent.authOptimistic true] = Role.viewer := by
  exact ⟨rfl, rfl⟩

/-- C4 amended: the background upgrade ladder itself never downgrades -
each of its steps either sets editor or leaves the role unchanged, and
from editor it always stays editor; the downgrade in the counterexample
comes from the auth-state handler, which optimistically resets to viewer
and applies a failed lookup result unconditionally. -/
theorem ladder_never_downgrades (r : Role) (lookup : Option Role) :
    (sessStep r (SessEvent.ladderStep lookup) = Role.editor ∨
      sessStep r (SessEvent.ladderStep lookup) = r) ∧
    sessStep Role.editor (SessEvent.ladderStep lookup) = Role.editor := by
  have hstep : ∀ r0 : Role, sessStep r0 (SessEvent.ladderStep lookup) =
      if resolveRole true lookup == Role.editor then Role.editor else r0 :=
    fun r0 => rfl
  constructor
  · rw [hstep r]
    by_cases h : (resolveRole true lookup == Role.editor) = true
    · rw [if_pos h]
      exact Or.inl rfl
    · rw [if_neg h]
      exact Or.inr rfl
  · rw [hstep Role.editor]
    by_cases h : (resolveRole true lookup == Role.editor) = true
    · rw [if_pos h]
    · rw [if_neg h]

/-- C5: when an admit insert hits the uniqueness-violation code 23505 the
toggle completes as a success - the item lands in the local admitted set
and nothing is propagated; any other insert error code leaves the set
unchanged and is not treated as a successful admit. -/
theorem toggleInpatient_conflict_success (cid : String) (inSet : List String)
    (it : Item) (derr : Option String)
    (hnotin : inSet.contains it.id = false) :
    toggleInpatient (some cid) false inSet it derr (some "23505") =
      ⟨it.id :: inSet, true⟩ ∧
    (∀ code, code ≠ "23505" →
      toggleInpatient (some cid) false inSet it derr (some code) = ⟨inSet, false⟩) ∧
    toggleInpatient (some cid) false inSet it derr none = ⟨it.id :: inSet, true⟩ := by
  have hni : it.id ∉ inSet := by simpa using hnotin
  refine ⟨?_, ?_, ?_⟩
  · unfold toggleInpatient
    simp [hni]
  · intro code hcode
    unfold toggleInpatient
    simp [hni, hcode]
  · unfold toggleInpatient
    simp [hni]

/-- Witness for C5: admitting a card not yet in the set with a 23505
conflict succeeds and records the id. -/
theorem toggleInpatient_conflict_success_witness :
    (([] : List String).contains sampleA.id = false) ∧
    toggleInpatient (some "center-1") false [] sampleA none (some "23505") =
      ⟨[sampleA.id], true⟩ :=
  ⟨by decide,
    (toggleInpatient_conflict_success "center-1" [] sampleA none (by decide)).1⟩

/-- C6: retry returns the value of the first successful attempt, waiting
baseDelay * 1.6 ^ i after each failed attempt i before it; if every one
of the maxAttempts attempts fails it fails with the last attempt error,
having waited after each of the maxAttempts failures. -/
theorem retry_contract {E A : Type} (fn : Nat → Except E A) (tries k : Nat)
    (base : ℚ) (err : Nat → E) (a : A) :
    (k < tries → (∀ j, j < k → ∃ e, fn j = Except.error e) → fn k = Except.ok a →
      retryModel fn tries base =
        (Except.ok a, (List.range k).map fun j => backoffDelay base j)) ∧
    (0 < tries → (∀ j, j < tries → fn j = Except.error (err j)) →
      retryModel fn tries base =
        (Except.error (some (err (tries - 1))),
          (List.range tries).map fun j => backoffDelay base j)) := by
  constructor
  · intro hk hfail hok
    have h := retryGo_success fn base tries k 0 none a hk
      (by simpa using hfail) (by simpa using hok)
    simpa [retryModel] using h
  · intro ht hfail
    have h := retryGo_allfail fn base err tries 0 none ht (by simpa using hfail)
    simpa [retryModel] using h

/-- Witness for C6 with the source defaults (6 attempts, 400 ms base):
failures at attempts 0 and 1, success at attempt 2. -/
theorem retry_contract_witness :
    ((2 : Nat) < 6 ∧
      (∀ j, j < 2 → ∃ e, sampleAttempts j = Except.error e) ∧
      sampleAttempts 2 = Except.ok 5) ∧
    retryModel sampleAttempts 6 400 =
      (Except.ok 5, (List.range 2).map fun j => backoffDelay 400 j) :=
  ⟨⟨by decide,
    fun j hj => ⟨"boom", by
      have hj2 : j = 0 ∨ j = 1 := by omega
      rcases hj2 with rfl | rfl <;> rfl⟩,
    rfl⟩,
    (retry_contract sampleAttempts 6 2 400 (fun _ => "boom") 5).1 (by decide)
      (fun j hj => ⟨"boom", by
        have hj2 : j = 0 ∨ j = 1 := by omega
        rcases hj2 with rfl | rfl <;> rfl⟩)
      rfl⟩

/-- C7 counterexample: in the `PageClientBoard.tsx` variant an online
error whose message carries an abort signature is classified fatal, not
transient - the signature list of that variant stops at timeout. -/
theorem transient_abort_counterexample :
    isTransientNetworkErrorTsx false "signal is aborted" = false ∧
    jsIncludes "signal is aborted" "abort" = true := by
  exact ⟨by decide, by decide⟩

/-- C7 amended: when the device is online and the message carries none of
the signatures of the respective list, both variants classify the error
fatal; the part_000 variant classifies any message containing an abort
signature as transient, while the tsx variant has no abort signatures. -/
theorem transient_classifier_contract (raw : String) :
    ((∀ sig ∈ ["failed to fetch", "networkerror", "network", "load failed",
        "err_network_changed", "internet_disconnected", "websocket", "timeout",
        "abort", "aborted", "aborterror", "signal is aborted"],
        jsIncludes (jsToLower raw) sig = false) →
      isTransientNetworkError false raw = false) ∧
    (jsIncludes (jsToLower raw) "abort" = true →
      isTransientNetworkError false raw = true) ∧
    ((∀ sig ∈ ["failed to fetch", "networkerror", "network", "load failed",
        "err_network_changed", "internet_disconnected", "websocket", "timeout"],
        jsIncludes (jsToLower raw) sig = false) →
      isTransientNetworkErrorTsx false raw = false) := by
  refine ⟨?_, ?_, ?_⟩
  · intro h
    have h1 := h "failed to fetch" (by simp)
    have h2 := h "networkerror" (by simp)
    have h3 := h "network" (by simp)
    have h4 := h "load failed" (by simp)
    have h5 := h "err_network_changed" (by simp)
    have h6 := h "internet_disconnected" (by simp)
    have h7 := h "websocket" (by simp)
    have h8 := h "timeout" (by simp)
    have h9 := h "abort" (by simp)
    have h10 := h "aborted" (by simp)
    have h11 := h "aborterror" (by simp)
    have h12 := h "signal is aborted" (by simp)
    simp [isTransientNetworkError, h1, h2, h3, h4, h5, h6, h7, h8, h9, h10, h11, h12]
  · intro h
    simp [isTransientNetworkError, h]
  · intro h
    have h1 := h "failed to fetch" (by simp)
    have h2 := h "networkerror" (by simp)
    have h3 := h "network" (by simp)
    have h4 := h "load failed" (by simp)
    have h5 := h "err_network_changed" (by simp)
    have h6 := h "internet_disconnected" (by simp)
    have h7 := h "websocket" (by simp)
    have h8 := h "timeout" (by simp)
    simp [isTransientNetworkErrorTsx, h1, h2, h3, h4, h5, h6, h7, h8]

/-- Witness for C7 amended: a plain authorization error message carries
no signature and is classified fatal by the part_000 variant. -/
theorem transient_classifier_contract_witness :
    (∀ sig ∈ ["failed to fetch", "networkerror", "network", "load failed",
        "err_network_changed", "internet_disconnected", "websocket", "timeout",
        "abort", "aborted", "aborterror", "signal is aborted"],
      jsIncludes (jsToLower "Row level security violation") sig = false) ∧
    isTransientNetworkError false "Row level security violation" = false :=
  ⟨by decide,
    (transient_classifier_contract "Row level security violation").1 (by decide)⟩

/-- C8 counterexample: the `PageClientBoard.tsx` variant of
`loadCenterConfig` keeps no in-flight marker - two calls with no
completion in between start two remote fetch sequences and return two
different pending results. -/
theorem config_loader_tsx_counterexample :
    (loadCenterConfigCallTsx (loadCenterConfigCallTsx ⟨none, 0, 0⟩).1).1.fetchesStarted
      = 2 ∧
    (loadCenterConfigCallTsx ⟨none, 0, 0⟩).2 ≠
      (loadCenterConfigCallTsx (loadCenterConfigCallTsx ⟨none, 0, 0⟩).1).2 := by
  exact ⟨rfl, by decide⟩

/-- C8 amended: the part_000 variant of `loadCenterConfig` is
single-flight - while a load is pending every further call returns the
same pending promise and starts no new fetch, and completion (success or
failure) clears the in-flight marker; the tsx variant has no such
marker. -/
theorem config_loader_single_flight (s : ConfigLoaderState) (t : Nat) :
    (s.inFlight = some t → loadCenterConfigCall s = (s, t)) ∧
    (s.inFlight = none →
      (loadCenterConfigCall s).1.fetchesStarted = s.fetchesStarted + 1 ∧
      (loadCenterConfigCall s).1.inFlight = some (loadCenterConfigCall s).2 ∧
      (loadCenterConfigCall (loadCenterConfigCall s).1).2 = (loadCenterConfigCall s).2 ∧
      (loadCenterConfigCall (loadCenterConfigCall s).1).1.fetchesStarted =
        s.fetchesStarted + 1) ∧
    (loadCenterConfigSettle s true).inFlight = none ∧
    (loadCenterConfigSettle s false).inFlight = none := by
  refine ⟨?_, ?_, rfl, rfl⟩
  · intro h
    unfold loadCenterConfigCall
    rw [h]
  · intro h
    unfold loadCenterConfigCall
    rw [h]
    exact ⟨rfl, rfl, rfl, rfl⟩

/-- Witness for C8 amended: from the idle initial state one call starts
exactly one fetch and a second concurrent call reuses its promise. -/
theorem config_loader_single_flight_witness :
    (⟨none, 0, 0⟩ : ConfigLoaderState).inFlight = none ∧
    ((loadCenterConfigCall ⟨none, 0, 0⟩).1.fetchesStarted = 0 + 1 ∧
      (loadCenterConfigCall ⟨none, 0, 0⟩).1.inFlight =
        some (loadCenterConfigCall ⟨none, 0, 0⟩).2 ∧
      (loadCenterConfigCall (loadCenterConfigCall ⟨none, 0, 0⟩).1).2 =
        (loadCenterConfigCall ⟨none, 0, 0⟩).2 ∧
      (loadCenterConfigCall (loadCenterConfigCall ⟨none, 0, 0⟩).1).1.fetchesStarted =
        0 + 1) :=
  ⟨rfl, (config_loader_single_flight ⟨none, 0, 0⟩ 0).2.1 rfl⟩

/-- C9: while the device reports offline both `refreshSafe` and the
underlying `refresh` perform no remote fetch and leave the local items
cache unchanged; once the device is online again (with a loaded center
and a live effect) a refresh trigger does fetch. -/
theorem refreshSafe_offline_noop (alive : Bool) (cidS : String)
    (cid : Option String) (items : List Item) (r : Option (List Item)) :
    refreshSafe alive false cid items r = ⟨items, false⟩ ∧
    refresh false cid items r = ⟨items, false⟩ ∧
    (refreshSafe true true (some cidS) items r).fetched = true ∧
    refreshSafe true true (some cidS) items r = refresh true (some cidS) items r := by
  refine ⟨?_, ?_, ?_, ?_⟩
  · cases alive <;> rfl
  · cases cid <;> rfl
  · cases r <;> rfl
  · cases r <;> rfl

/-- C10: every `signOut` invocation removes the persisted
salatrack_readonly flag as its first effect, before the remote sign-out
call, regardless of the remote outcome - while on mount the flag read
from storage does survive reloads. -/
theorem signOut_clears_readonly_first (remoteError : Bool) :
    (signOutEffects remoteError).take 2 =
      [SignOutEffect.removeLocal "salatrack_readonly", SignOutEffect.remoteSignOut] ∧
    readOnlyInit (some "1") = true ∧
    readOnlyInit (some "0") = false ∧
    readOnlyInit none = false := by
  refine ⟨?_, by decide, by decide, rfl⟩
  cases remoteError <;> rfl

end SalaTrack
